import Mathlib

/-
Verification of the fastapi-nodnod route adapter (`fastapi_nodnod/core.py`)
against its natural-language specification.

The adapter itself (`_is_node`, `_resolve`, `nodnod_route`, `NodnodScope`,
`create_scope`) is embedded from the source.  The `nodnod` engine objects it
imports (`Scope`, `EventLoopAgent`, `Node`, `Value`) are not part of this
repository; where their behavior matters they are modelled from the spec and
marked as such.
-/

set_option autoImplicit false

namespace FastapiNodnod

/-- Scope lookup keys: the Python type objects used to key values in a nodnod
scope.  `Ty.request` stands for `starlette.requests.Request`; `Ty.cls i`
stands for any other class object (a node class used as its own value type,
or a plain value class named by a `__type__` attribute). -/
inductive Ty where
  | request
  | cls (id : Nat)
deriving DecidableEq, Repr

/-- Runtime values (request objects, resolved node values, handler results)
are identified by a numeric code; their Python structure never matters to the
adapter. -/
abbrev Val := Nat

/-- A Python annotation as the decorator sees it after
`hints.get(name, param.annotation)`: `empty` is `inspect.Parameter.empty`;
`request` is the `Request` class; `cls id isNodeSub tyAttr` is a class
object, `isNodeSub` recording `issubclass(cls, Node)` and `tyAttr` the
optional `__type__` attribute; `generic inner` is a non-class generic alias
such as `typing.Optional[X]` or `list[X]`, for which `isinstance(ann, type)`
is false or `issubclass(ann, Node)` raises `TypeError`. -/
inductive Ann where
  | empty
  | request
  | cls (id : Nat) (isNodeSub : Bool) (tyAttr : Option Ty)
  | generic (inner : Ann)
deriving DecidableEq, Repr

/-- Embedding of `_is_node` (core.py lines 17-21): `isinstance(ann, type) and
issubclass(ann, Node)`, with a raised `TypeError` caught and turned into
`False`.  Only a class object that subclasses `Node` qualifies; a generic
alias is not a class (or makes `issubclass` raise), and `empty` and the
`Request` class are not `Node` subclasses. -/
def is_node : Ann → Bool
  | .cls _ b _ => b
  | _ => false

/-- Embedding of `getattr(node_type, "__type__", node_type)` (core.py line
50): the scope key under which a node class publishes its resolved value.
Only class annotations ever occur as node parameters; the `empty` and
`generic` arms exist for totality and are unreachable from `_resolve`. -/
def outType : Ann → Ty
  | .cls _ _ (some t) => t
  | .cls i _ none => .cls i
  | .request => .request
  | .empty => .cls 0
  | .generic _ => .cls 0

/-- Kind of an `inspect.Parameter`; only the distinction the code uses is
kept (the synthesized request parameter is `KEYWORD_ONLY`). -/
inductive PKind where
  | posOrKw
  | kwOnly
deriving DecidableEq, Repr

/-- One handler parameter: its name, its resolved type annotation, and its
parameter kind. -/
structure Param where
  name : String
  ann : Ann
  kind : PKind
deriving DecidableEq, Repr

/-- First-match lookup in a newest-first entry list, keyed by type. -/
def lookupTy (t : Ty) : List (Ty × Val) → Option Val
  | [] => none
  | (u, v) :: rest => if u = t then some v else lookupTy t rest

/-- Modelled from the spec: the nodnod `Scope` is imported from the external
`nodnod` package and is not part of this repository.  Per the spec it is a
hierarchical container of values keyed by type, with an optional parent.
Entries are kept newest-first so that first-match lookup realizes the
overwrite-in-this-scope semantics of `push`. -/
inductive Scope where
  | root (entries : List (Ty × Val))
  | child (entries : List (Ty × Val)) (parent : Scope)
deriving DecidableEq, Repr

/-- Local entries of a scope (this scope only, not the parent chain). -/
def Scope.localEntries : Scope → List (Ty × Val)
  | .root es => es
  | .child es _ => es

/-- Modelled from the spec: `push(type, value)` unconditionally stores a
value for a type in this scope only, overwriting any prior value for that
type in this scope. -/
def Scope.push : Scope → Ty → Val → Scope
  | .root es, t, v => .root ((t, v) :: es)
  | .child es p, t, v => .child ((t, v) :: es) p

/-- Modelled from the spec: `retrieve(type)` looks up this scope, then walks
the parent chain; absence is an ordinary "not found" outcome, not an
error. -/
def Scope.retrieve : Scope → Ty → Option Val
  | .root es, t => lookupTy t es
  | .child es p, t =>
    match lookupTy t es with
    | some v => some v
    | none => p.retrieve t

/-- Modelled from the spec: `create_child(detail)` makes a new empty scope
whose parent is the receiver. -/
def Scope.create_child (s : Scope) : Scope := .child [] s

/-- Embedding of `NodnodScope` (core.py lines 124-142): a wrapper holding one
shared `Scope` (the `detail` string is irrelevant to behavior and dropped). -/
structure NodnodScope where
  scope : Scope

/-- Embedding of `create_scope` (core.py lines 145-147): a fresh shared scope
with no parent and no entries. -/
def create_scope : NodnodScope := ⟨Scope.root []⟩

/-- Embedding of `NodnodScope.set` (core.py line 133-134):
`self._scope.push(Value(type_, value))`. -/
def NodnodScope.set (s : NodnodScope) (t : Ty) (v : Val) : NodnodScope :=
  ⟨s.scope.push t v⟩

/-- Embedding of `NodnodScope.get` (core.py lines 136-141): retrieve from the
shared scope, `Some` unboxed to the value and `Nothing` to `None`. -/
def NodnodScope.get (s : NodnodScope) (t : Ty) : Option Val :=
  s.scope.retrieve t

/-- Observable effects of one registration or one wrapper invocation, in the
order they happen.  `scopeDisposed` is the exit of `async with scope:`,
which per the spec runs the scope's registered cleanups. -/
inductive Event where
  | scopeCreated
  | requestPushed
  | agentBuild
  | agentRun
  | handlerCalled
  | scopeDisposed
deriving DecidableEq, Repr

/-- A route handler function: its signature (`inspect.signature(fn)` with
annotations already resolved through `typing.get_type_hints`) and its
behavior on keyword arguments.  `Except.error` models the handler raising;
an async handler awaited to completion behaves identically here. -/
structure Handler where
  params : List Param
  call : List (String × Val) → Except String Val

/-- Modelled from the spec: the behavior of a compiled `EventLoopAgent`'s
`run` over a request scope.  Per the spec, `run` executes the compiled
closure against the given scope and stores each result via the scope's
resolution mechanism so later `retrieve` calls see it; we model it as the
list of type-keyed values it deposits in the request scope's local table, or
an error when a composition function raises. -/
abbrev AgentRun := Scope → Except String (List (Ty × Val))

/-- Modelled from the spec: `EventLoopAgent.build` compiles an agent, once,
from the set of requested node types.  Its internals are external; the
adapter only needs the resulting `run`. -/
abbrev AgentBuild := List Ann → AgentRun

/-- Embedding of `nodnod_route`'s node-parameter partition (core.py lines
92-96): for each signature parameter, take its resolved annotation and
record it as node-injected iff the annotation is not `empty` and `_is_node`
holds. -/
def nodeParamsOf (ps : List Param) : List (String × Ann) :=
  ps.filterMap fun p =>
    if p.ann ≠ Ann.empty ∧ is_node p.ann then some (p.name, p.ann) else none

/-- The parameter appended by `nodnod_route` (core.py lines 108-110):
`inspect.Parameter("request", KEYWORD_ONLY, annotation=Request)`. -/
def reqParam : Param := ⟨"request", Ann.request, PKind.kwOnly⟩

/-- Embedding of the synthesized signature (core.py lines 103-111): keep, in
order, every original parameter whose name is neither a node-parameter name
nor the literal `"request"`, then append the keyword-only request
parameter. -/
def newSignature (ps : List Param) (nodeNames : List String) : List Param :=
  ps.filter (fun p => decide (p.name ∉ nodeNames ∧ p.name ≠ "request")) ++ [reqParam]

/-- What `nodnod_route` returns for a handler: either the handler itself,
untouched (no node-injected parameter), or the wrapper closure together
with everything it captured (the compiled agent's run, the node-parameter
table, the synthesized signature, the handler, and the optional shared
scope). -/
inductive Route where
  | passthrough (h : Handler)
  | wrapped (run : AgentRun) (np : List (String × Ann)) (sig : List Param)
      (h : Handler) (shared : Option Scope)

/-- Embedding of `nodnod_route`'s decorator (core.py lines 89-117), with the
trace of registration-time engine effects: compute the node-parameter
partition; if it is empty return the handler unmodified with no effects;
otherwise call `EventLoopAgent.build` once over the set of node-parameter
annotations and return the wrapper. -/
def nodnod_route (build : AgentBuild) (shared : Option Scope) (h : Handler) :
    Route × List Event :=
  let np := nodeParamsOf h.params
  if np.isEmpty then
    (.passthrough h, [])
  else
    (.wrapped (build (np.map Prod.snd).dedup) np
      (newSignature h.params (np.map Prod.fst)) h shared, [Event.agentBuild])

/-- Embedding of the scope set-up of `_resolve` (core.py lines 39-46): a
child of the shared scope when one was supplied at registration, otherwise a
standalone scope, with the ambient request object pushed under the `Request`
type. -/
def requestScope (parentScope : Option Scope) (request : Val) : Scope :=
  (match parentScope with
   | some p => p.create_child
   | none => Scope.root []).push Ty.request request

/-- Update-or-append on a keyword-argument map, mirroring Python dict
assignment `resolved[name] = value` on `resolved = dict(kwargs)`. -/
def setArg (k : String) (v : Val) : List (String × Val) → List (String × Val)
  | [] => [(k, v)]
  | (n, w) :: rest => if n = k then (k, v) :: rest else (n, w) :: setArg k v rest

/-- First-match lookup in a keyword-argument map. -/
def lookupArg (k : String) : List (String × Val) → Option Val
  | [] => none
  | (n, v) :: rest => if n = k then some v else lookupArg k rest

/-- Embedding of the argument merge of `_resolve` (core.py lines 48-56):
starting from `dict(kwargs)`, for each node parameter in order, retrieve its
`__type__` (default: the node class itself) from the request scope; on
`Some` bind the value under the parameter's original name, on `Nothing` do
nothing. -/
def mergedArgs (np : List (String × Ann)) (scope : Scope)
    (kwargs : List (String × Val)) : List (String × Val) :=
  np.foldl
    (fun acc p =>
      match scope.retrieve (outType p.2) with
      | some v => setArg p.1 v acc
      | none => acc)
    kwargs

/-- Embedding of `_resolve` (core.py lines 31-60) with its trace of effects:
create the request scope, push the request, run the agent inside
`async with scope:`; if the agent raises, the error propagates and the scope
is still disposed; otherwise merge resolved values over the framework
kwargs, call the handler (its result or its raised error propagating), and
dispose the scope on the way out of the `async with`. -/
def resolveReq (func : List (String × Val) → Except String Val)
    (run : AgentRun) (np : List (String × Ann)) (request : Val)
    (kwargs : List (String × Val)) (parentScope : Option Scope) :
    Except String Val × List Event :=
  let scope1 := requestScope parentScope request
  match run scope1 with
  | .error e =>
    (.error e,
     [Event.scopeCreated, Event.requestPushed, Event.agentRun,
      Event.scopeDisposed])
  | .ok additions =>
    let scope2 := additions.foldl (fun s tv => s.push tv.1 tv.2) scope1
    (func (mergedArgs np scope2 kwargs),
     [Event.scopeCreated, Event.requestPushed, Event.agentRun,
      Event.handlerCalled, Event.scopeDisposed])

/-- How the host framework invokes what `nodnod_route` returned: a
passthrough handler is called directly with the framework-resolved kwargs
(no adapter effects at all); a wrapper receives the ambient request plus the
framework-native kwargs and delegates to `_resolve` (core.py lines
112-114). -/
def Route.invoke : Route → Val → List (String × Val) → Except String Val × List Event
  | .passthrough h, _, kwargs => (h.call kwargs, [])
  | .wrapped run np _ h shared, request, kwargs =>
    resolveReq h.call run np request kwargs shared

/-- The classification the spec's words describe (§4.4): node-injected when
the declared type is a Node Type, or a generic wrapper (e.g. an optional)
around one.  Stated from the spec only, to be compared with `is_node`. -/
def specIsNode : Ann → Bool
  | .cls _ b _ => b
  | .generic inner => specIsNode inner
  | _ => false

/-- The synthesized signature the spec's words describe (C7): exactly the
framework-native parameters, each untouched, with node-injected parameters
removed and the request parameter added.  Stated from the spec only, to be
compared with `newSignature`. -/
def specNewSignature (ps : List Param) (nodeNames : List String) : List Param :=
  ps.filter (fun p => decide (p.name ∉ nodeNames)) ++ [reqParam]

/-- Pushing a value for a type makes `retrieve` of that type return it. -/
theorem Scope.retrieve_push_self (s : Scope) (t : Ty) (v : Val) :
    (s.push t v).retrieve t = some v := by
  cases s <;> simp [Scope.push, Scope.retrieve, lookupTy]

/-- Looking up the key just set returns the new value. -/
theorem lookupArg_setArg_self (k : String) (v : Val) (l : List (String × Val)) :
    lookupArg k (setArg k v l) = some v := by
  induction l with
  | nil => simp [setArg, lookupArg]
  | cons hd tl ih =>
    by_cases h : hd.1 = k
    · simp [setArg, lookupArg, h]
    · simp [setArg, lookupArg, h, ih]

/-- Setting one key does not change lookups of a different key. -/
theorem lookupArg_setArg_ne (k k' : String) (v : Val) (l : List (String × Val))
    (hne : k' ≠ k) : lookupArg k' (setArg k v l) = lookupArg k' l := by
  have hkk : ¬ (k = k') := fun h => hne h.symm
  induction l with
  | nil => simp [setArg, lookupArg, hkk]
  | cons hd tl ih =>
    by_cases h : hd.1 = k
    · simp [setArg, lookupArg, h, hkk]
    · simp only [setArg, lookupArg, if_neg h]
      by_cases h' : hd.1 = k' <;> simp [h', ih]

/-- Frame property of the argument merge: a key that is not a node-parameter
name keeps exactly the binding it had among the framework kwargs. -/
theorem mergedArgs_frame (np : List (String × Ann)) (s : Scope)
    (kw : List (String × Val)) (k : String) (hk : k ∉ np.map Prod.fst) :
    lookupArg k (mergedArgs np s kw) = lookupArg k kw := by
  induction np generalizing kw with
  | nil => rfl
  | cons hd tl ih =>
    simp only [List.map_cons, List.mem_cons, not_or] at hk
    show lookupArg k
        (mergedArgs tl s
          (match s.retrieve (outType hd.2) with
           | some v => setArg hd.1 v kw
           | none => kw)) = lookupArg k kw
    cases hr : s.retrieve (outType hd.2) with
    | none => simpa using ih _ hk.2
    | some v =>
      simp only
      rw [ih _ hk.2, lookupArg_setArg_ne _ _ _ _ hk.1]

/-- Names of the node-parameter partition characterize the classification,
provided parameter names are distinct (as they are in a Python signature). -/
theorem mem_nodeNames_iff (ps : List Param) (hnd : (ps.map Param.name).Nodup)
    (p : Param) (hp : p ∈ ps) :
    p.name ∈ (nodeParamsOf ps).map Prod.fst ↔
      (p.ann ≠ Ann.empty ∧ is_node p.ann) := by
  constructor
  · intro hmem
    rcases List.mem_map.mp hmem with ⟨q, hq, hqname⟩
    rcases List.mem_filterMap.mp hq with ⟨r, hr, hrq⟩
    by_cases hc : r.ann ≠ Ann.empty ∧ is_node r.ann
    · rw [if_pos hc] at hrq
      have hq2 : q = (r.name, r.ann) := (Option.some.inj hrq).symm
      subst hq2
      have hrp : r = p := List.inj_on_of_nodup_map hnd hr hp hqname
      rwa [← hrp]
    · rw [if_neg hc] at hrq
      simp at hrq
  · intro hc
    apply List.mem_map.mpr
    refine ⟨(p.name, p.ann), ?_, rfl⟩
    apply List.mem_filterMap.mpr
    exact ⟨p, hp, by rw [if_pos hc]⟩

/-- Unfolding of the argument merge over one node parameter. -/
theorem mergedArgs_cons (hd : String × Ann) (tl : List (String × Ann))
    (s : Scope) (kw : List (String × Val)) :
    mergedArgs (hd :: tl) s kw
      = mergedArgs tl s
          (match s.retrieve (outType hd.2) with
           | some v => setArg hd.1 v kw
           | none => kw) := rfl

/-- The wrapper's effect trace is one of exactly two literal traces,
according to whether the agent's run raised. -/
theorem resolveReq_trace_cases
    (func : List (String × Val) → Except String Val) (run : AgentRun)
    (np : List (String × Ann)) (request : Val)
    (kwargs : List (String × Val)) (parentScope : Option Scope) :
    (resolveReq func run np request kwargs parentScope).2
      = [Event.scopeCreated, Event.requestPushed, Event.agentRun,
         Event.scopeDisposed] ∨
    (resolveReq func run np request kwargs parentScope).2
      = [Event.scopeCreated, Event.requestPushed, Event.agentRun,
         Event.handlerCalled, Event.scopeDisposed] := by
  cases hr : run (requestScope parentScope request) with
  | error e => left; simp [resolveReq, hr]
  | ok additions => right; simp [resolveReq, hr]

/-- C3: for every request handled by the wrapper, exactly one request scope
is created — a child of the shared scope when one was supplied at
registration, otherwise standalone — and the ambient request object is
pushed into it under the request type before the compiled agent's run is
invoked (exactly once) against that scope. -/
theorem resolveReq_scope_per_request
    (func : List (String × Val) → Except String Val) (run : AgentRun)
    (np : List (String × Ann)) (request : Val)
    (kwargs : List (String × Val)) (parentScope : Option Scope) :
    (resolveReq func run np request kwargs parentScope).2.count
        Event.scopeCreated = 1 ∧
    (resolveReq func run np request kwargs parentScope).2.takeWhile
        (fun e => !(e == Event.agentRun))
      = [Event.scopeCreated, Event.requestPushed] ∧
    (resolveReq func run np request kwargs parentScope).2.count
        Event.agentRun = 1 ∧
    (requestScope parentScope request).retrieve Ty.request = some request ∧
    (∀ p : Scope,
        requestScope (some p) request = Scope.child [(Ty.request, request)] p) ∧
    requestScope none request = Scope.root [(Ty.request, request)] := by
  refine ⟨?_, ?_, ?_, ?_, fun p => rfl, rfl⟩
  · rcases resolveReq_trace_cases func run np request kwargs parentScope with
      h | h <;> rw [h] <;> decide
  · rcases resolveReq_trace_cases func run np request kwargs parentScope with
      h | h <;> rw [h] <;> decide
  · rcases resolveReq_trace_cases func run np request kwargs parentScope with
      h | h <;> rw [h] <;> decide
  · cases parentScope with
    | none => simp [requestScope, Scope.push, Scope.retrieve, lookupTy]
    | some p =>
      simp [requestScope, Scope.create_child, Scope.push, Scope.retrieve,
        lookupTy]

/-- C4: after the agent has run, the wrapper retrieves each node-injected
parameter's value type from the request scope; a found value is bound into
the call arguments under the parameter's original name, and a miss leaves
that argument exactly as the framework kwargs had it — absence is handled by
omission, never raised as an error. -/
theorem mergedArgs_bind_or_omit (np : List (String × Ann)) (scope : Scope)
    (kw : List (String × Val)) (name : String) (ann : Ann)
    (hmem : (name, ann) ∈ np) (hnd : (np.map Prod.fst).Nodup) :
    (∀ v : Val, scope.retrieve (outType ann) = some v →
        lookupArg name (mergedArgs np scope kw) = some v) ∧
    (scope.retrieve (outType ann) = none →
        lookupArg name (mergedArgs np scope kw) = lookupArg name kw) := by
  induction np generalizing kw with
  | nil => cases hmem
  | cons hd tl ih =>
    have hnd2 : (hd.1 :: tl.map Prod.fst).Nodup := by simpa using hnd
    have hhd : hd.1 ∉ tl.map Prod.fst := (List.nodup_cons.mp hnd2).1
    rcases List.mem_cons.mp hmem with heq | htl
    · subst heq
      constructor
      · intro v hv
        rw [mergedArgs_cons]
        simp only [hv]
        rw [mergedArgs_frame tl scope _ name hhd, lookupArg_setArg_self]
      · intro hv
        rw [mergedArgs_cons]
        simp only [hv]
        exact mergedArgs_frame tl scope kw name hhd
    · have hname_tl : name ∈ tl.map Prod.fst :=
        List.mem_map.mpr ⟨(name, ann), htl, rfl⟩
      have hne : name ≠ hd.1 := fun h => hhd (h ▸ hname_tl)
      have hndtl : (tl.map Prod.fst).Nodup := (List.nodup_cons.mp hnd2).2
      cases hr : scope.retrieve (outType hd.2) with
      | none =>
        rw [mergedArgs_cons]
        simp only [hr]
        exact ih kw htl hndtl
      | some v =>
        rw [mergedArgs_cons]
        simp only [hr]
        constructor
        · intro w hw
          exact (ih (setArg hd.1 v kw) htl hndtl).1 w hw
        · intro hw
          rw [(ih (setArg hd.1 v kw) htl hndtl).2 hw,
            lookupArg_setArg_ne _ _ _ _ hne]

/-- Node-parameter table with one entry, used as a concrete witness. -/
def npEx : List (String × Ann) := [("user", Ann.cls 1 true none)]

/-- Request scope holding a value for the witness node's type. -/
def scopeEx : Scope := Scope.root [(Ty.cls 1, 42), (Ty.request, 9)]

/-- C4 witness: the bind-or-omit theorem applied to a concrete one-entry
node-parameter table; the scope holds 42 for the node's type, so the handler
argument `user` is bound to 42. -/
theorem mergedArgs_bind_or_omit_witness :
    ("user", Ann.cls 1 true none) ∈ npEx ∧
    (npEx.map Prod.fst).Nodup ∧
    scopeEx.retrieve (outType (Ann.cls 1 true none)) = some 42 ∧
    lookupArg "user" (mergedArgs npEx scopeEx [("page", 5)]) = some 42 := by
  refine ⟨by decide, by decide, by decide, ?_⟩
  exact (mergedArgs_bind_or_omit npEx scopeEx [("page", 5)] "user"
    (Ann.cls 1 true none) (by decide) (by decide)).1 42 (by decide)

/-- C5: on every exit path of the wrapper — normal return, a raising
handler, or an agent run that raises during resolution — the request scope
is disposed exactly once, as the final effect before the wrapper returns or
propagates, and every handler call precedes the disposal, so cleanups run
exactly once per request, after the handler, regardless of success or
failure. -/
theorem resolveReq_dispose_every_path
    (func : List (String × Val) → Except String Val) (run : AgentRun)
    (np : List (String × Ann)) (request : Val)
    (kwargs : List (String × Val)) (parentScope : Option Scope) :
    (resolveReq func run np request kwargs parentScope).2.count
        Event.scopeDisposed = 1 ∧
    (resolveReq func run np request kwargs parentScope).2.getLast?
      = some Event.scopeDisposed ∧
    ((resolveReq func run np request kwargs parentScope).2.takeWhile
          (fun e => !(e == Event.scopeDisposed))).count Event.handlerCalled
      = (resolveReq func run np request kwargs parentScope).2.count
          Event.handlerCalled := by
  rcases resolveReq_trace_cases func run np request kwargs parentScope with
    h | h <;> rw [h] <;> exact by decide

/-- C1: when a handler has zero node-injected parameters, `nodnod_route`
returns the handler itself unmodified with no registration-time effects (no
agent built), and invoking the returned route is identical to calling the
handler directly, with no scope created, no agent run, and no wrapper
effects. -/
theorem nodnod_route_no_node_params_passthrough (build : AgentBuild)
    (shared : Option Scope) (h : Handler)
    (hnp : nodeParamsOf h.params = []) :
    nodnod_route build shared h = (Route.passthrough h, []) ∧
    ∀ (request : Val) (kwargs : List (String × Val)),
      Route.invoke (nodnod_route build shared h).1 request kwargs
        = (h.call kwargs, []) := by
  have hemp : (nodeParamsOf h.params).isEmpty = true := by
    rw [hnp]; rfl
  constructor
  · simp [nodnod_route, hemp]
  · intro request kwargs
    simp [nodnod_route, hemp, Route.invoke]

/-- Handler with no node-injected parameter, used as a concrete witness. -/
def hQueryEx : Handler :=
  ⟨[⟨"q", Ann.cls 3 false none, PKind.posOrKw⟩],
   fun kw => .ok ((lookupArg "q" kw).getD 0)⟩

/-- Agent-build stub used by concrete witnesses (the engine is external). -/
def buildEx : AgentBuild := fun _ _ => .ok []

/-- C1 witness: the passthrough theorem applied to a concrete handler whose
single parameter is annotated with a non-Node class. -/
theorem nodnod_route_no_node_params_passthrough_witness :
    nodeParamsOf hQueryEx.params = [] ∧
    (nodnod_route buildEx none hQueryEx = (Route.passthrough hQueryEx, []) ∧
     ∀ (request : Val) (kwargs : List (String × Val)),
       Route.invoke (nodnod_route buildEx none hQueryEx).1 request kwargs
         = (hQueryEx.call kwargs, [])) :=
  ⟨by decide, nodnod_route_no_node_params_passthrough buildEx none hQueryEx (by decide)⟩

/-- An `Optional`-style generic wrapper around a Node class. -/
def optNodeAnn : Ann := Ann.generic (Ann.cls 1 true none)

/-- C2 counterexample: a parameter annotated with a generic wrapper (e.g. an
optional) around a Node Type is classified framework-native by the code —
`nodeParamsOf` leaves it out — although the spec's classification calls it
node-injected. -/
theorem node_partition_generic_wrapper_cex :
    nodeParamsOf [⟨"x", optNodeAnn, PKind.posOrKw⟩] = [] ∧
    optNodeAnn ≠ Ann.empty ∧ specIsNode optNodeAnn = true ∧
    is_node optNodeAnn = false := by decide

/-- C2 amended: at registration time a parameter is classified node-injected
exactly when its declared type is itself a class object subclassing `Node`;
every other parameter — including one annotated with the ambient request
type, and one annotated with a generic wrapper around a Node Type — is
framework-native. -/
theorem node_partition_iff_class_subclassing_node (ps : List Param)
    (p : Param) (hp : p ∈ ps) :
    (p.name, p.ann) ∈ nodeParamsOf ps ↔
      ∃ i oT, p.ann = Ann.cls i true oT := by
  constructor
  · intro hmem
    rcases List.mem_filterMap.mp hmem with ⟨r, _, hrq⟩
    by_cases hc : r.ann ≠ Ann.empty ∧ is_node r.ann
    · rw [if_pos hc] at hrq
      have hann : r.ann = p.ann := congrArg Prod.snd (Option.some.inj hrq)
      rcases hc with ⟨-, hnode⟩
      rw [hann] at hnode
      cases hpa : p.ann with
      | cls i b oT =>
        rw [hpa] at hnode
        cases b with
        | true => exact ⟨i, oT, rfl⟩
        | false => simp [is_node] at hnode
      | empty => rw [hpa] at hnode; simp [is_node] at hnode
      | request => rw [hpa] at hnode; simp [is_node] at hnode
      | generic inner => rw [hpa] at hnode; simp [is_node] at hnode
    · rw [if_neg hc] at hrq
      simp at hrq
  · rintro ⟨i, oT, hann⟩
    apply List.mem_filterMap.mpr
    refine ⟨p, hp, ?_⟩
    have h1 : p.ann ≠ Ann.empty := by rw [hann]; exact fun hc => Ann.noConfusion hc
    have h2 : is_node p.ann = true := by rw [hann]; rfl
    rw [if_pos ⟨h1, h2⟩]

/-- Parameter annotated with a Node class, used as a concrete witness. -/
def pUserEx : Param := ⟨"user", Ann.cls 1 true none, PKind.posOrKw⟩

/-- C2 witness: the amended classification theorem applied to a concrete
one-parameter signature whose parameter is a Node class. -/
theorem node_partition_iff_class_subclassing_node_witness :
    pUserEx ∈ [pUserEx] ∧
    ((pUserEx.name, pUserEx.ann) ∈ nodeParamsOf [pUserEx] ↔
      ∃ i oT, pUserEx.ann = Ann.cls i true oT) :=
  ⟨by decide, node_partition_iff_class_subclassing_node [pUserEx] pUserEx (by decide)⟩

/-- C6: for every route with at least one node-injected parameter, the
agent is built exactly once, at route-registration (decoration) time, over
the set of node-injected annotations; the per-request wrapper never builds,
and invokes the already-compiled agent's run exactly once per request. -/
theorem agent_build_once_run_once (build : AgentBuild) (shared : Option Scope)
    (h : Handler) (hnp : nodeParamsOf h.params ≠ []) :
    (nodnod_route build shared h).2.count Event.agentBuild = 1 ∧
    (nodnod_route build shared h).1
      = Route.wrapped (build ((nodeParamsOf h.params).map Prod.snd).dedup)
          (nodeParamsOf h.params)
          (newSignature h.params ((nodeParamsOf h.params).map Prod.fst))
          h shared ∧
    ∀ (request : Val) (kwargs : List (String × Val)),
      (Route.invoke (nodnod_route build shared h).1 request kwargs).2.count
          Event.agentBuild = 0 ∧
      (Route.invoke (nodnod_route build shared h).1 request kwargs).2.count
          Event.agentRun = 1 := by
  have hemp : (nodeParamsOf h.params).isEmpty = false := by
    cases hnp2 : nodeParamsOf h.params with
    | nil => exact absurd hnp2 hnp
    | cons a l => rfl
  have hroute : (nodnod_route build shared h).1
      = Route.wrapped (build ((nodeParamsOf h.params).map Prod.snd).dedup)
          (nodeParamsOf h.params)
          (newSignature h.params ((nodeParamsOf h.params).map Prod.fst))
          h shared := by
    simp [nodnod_route, hemp]
  refine ⟨by simp [nodnod_route, hemp], hroute, ?_⟩
  intro request kwargs
  rw [hroute]
  show (resolveReq h.call _ _ request kwargs shared).2.count Event.agentBuild = 0 ∧
    (resolveReq h.call _ _ request kwargs shared).2.count Event.agentRun = 1
  rcases resolveReq_trace_cases h.call
      (build ((nodeParamsOf h.params).map Prod.snd).dedup)
      (nodeParamsOf h.params) request kwargs shared with ht | ht <;>
    rw [ht] <;> exact by decide

/-- Handler with one node-injected parameter, used as a concrete witness. -/
def hUserEx : Handler :=
  ⟨[pUserEx], fun kw => .ok ((lookupArg "user" kw).getD 0)⟩

/-- C6 witness: the build-once/run-once theorem applied to a concrete
handler with one Node-annotated parameter and a stub engine. -/
theorem agent_build_once_run_once_witness :
    nodeParamsOf hUserEx.params ≠ [] ∧
    ((nodnod_route buildEx none hUserEx).2.count Event.agentBuild = 1 ∧
     (nodnod_route buildEx none hUserEx).1
       = Route.wrapped
           (buildEx ((nodeParamsOf hUserEx.params).map Prod.snd).dedup)
           (nodeParamsOf hUserEx.params)
           (newSignature hUserEx.params
             ((nodeParamsOf hUserEx.params).map Prod.fst))
           hUserEx none ∧
     ∀ (request : Val) (kwargs : List (String × Val)),
       (Route.invoke (nodnod_route buildEx none hUserEx).1 request
           kwargs).2.count Event.agentBuild = 0 ∧
       (Route.invoke (nodnod_route buildEx none hUserEx).1 request
           kwargs).2.count Event.agentRun = 1) :=
  ⟨by decide, agent_build_once_run_once buildEx none hUserEx (by decide)⟩

/-- Signature with a node parameter and a framework-native parameter that
happens to be named `request` (annotated with a plain non-Node class). -/
def psSigEx : List Param :=
  [⟨"n", Ann.cls 1 true none, PKind.posOrKw⟩,
   ⟨"request", Ann.cls 5 false none, PKind.posOrKw⟩]

/-- C7 counterexample: the synthesized signature is not "exactly the
framework-native parameters, each left untouched, plus one added request
parameter": a framework-native parameter named `request` (whatever its
annotation) is dropped from the synthesized signature. -/
theorem newSignature_spec_cex :
    newSignature psSigEx ((nodeParamsOf psSigEx).map Prod.fst)
      ≠ specNewSignature psSigEx ((nodeParamsOf psSigEx).map Prod.fst) ∧
    (⟨"request", Ann.cls 5 false none, PKind.posOrKw⟩ : Param)
      ∈ specNewSignature psSigEx ((nodeParamsOf psSigEx).map Prod.fst) ∧
    (⟨"request", Ann.cls 5 false none, PKind.posOrKw⟩ : Param)
      ∉ newSignature psSigEx ((nodeParamsOf psSigEx).map Prod.fst) := by
  decide

/-- C7 amended: with distinct parameter names, the synthesized signature
consists of exactly the framework-native parameters except any parameter
named `request`, each left untouched and in order, followed by the one
appended keyword-only parameter through which the host framework hands over
the ambient request. -/
theorem newSignature_framework_native_except_request (ps : List Param)
    (hnd : (ps.map Param.name).Nodup) :
    newSignature ps ((nodeParamsOf ps).map Prod.fst)
      = ps.filter
          (fun p =>
            decide (¬(p.ann ≠ Ann.empty ∧ is_node p.ann) ∧ p.name ≠ "request"))
        ++ [reqParam] := by
  unfold newSignature
  congr 1
  apply List.filter_congr
  intro p hp
  have hiff := mem_nodeNames_iff ps hnd p hp
  by_cases hreq : p.name = "request"
  · simp [hreq]
  · by_cases hcl : p.ann ≠ Ann.empty ∧ is_node p.ann
    · simp [hreq, hcl, hiff.mpr hcl]
    · have hnn : p.name ∉ (nodeParamsOf ps).map Prod.fst :=
        fun hmem => hcl (hiff.mp hmem)
      simp [hreq, hcl, hnn]

/-- Signature mixing one node parameter and one query parameter, used as a
concrete witness. -/
def psMixEx : List Param :=
  [⟨"user", Ann.cls 1 true none, PKind.posOrKw⟩,
   ⟨"page", Ann.cls 7 false none, PKind.posOrKw⟩]

/-- C7 witness: the amended signature theorem applied to a concrete mixed
signature with distinct names. -/
theorem newSignature_framework_native_except_request_witness :
    (psMixEx.map Param.name).Nodup ∧
    newSignature psMixEx ((nodeParamsOf psMixEx).map Prod.fst)
      = psMixEx.filter
          (fun p =>
            decide (¬(p.ann ≠ Ann.empty ∧ is_node p.ann) ∧ p.name ≠ "request"))
        ++ [reqParam] :=
  ⟨by decide, newSignature_framework_native_except_request psMixEx (by decide)⟩

/-- C8: a value pushed into the shared scope under a type before requests
begin is read back by the shared-scope API, and a request scope chained to
that shared scope resolves the type to that value — unless the request scope
shadows it with its own push, in which case the shadowing value wins. -/
theorem shared_scope_chain_resolution (base : NodnodScope) (T : Ty) (V : Val)
    (es : List (Ty × Val)) (hshadow : lookupTy T es = none) :
    (base.set T V).get T = some V ∧
    (Scope.child es (base.set T V).scope).retrieve T = some V ∧
    (∀ V' : Val,
        ((Scope.child es (base.set T V).scope).push T V').retrieve T
          = some V') ∧
    ∀ req : Val, T ≠ Ty.request →
      (requestScope (some (base.set T V).scope) req).retrieve T = some V := by
  have hbase : (base.set T V).scope.retrieve T = some V :=
    Scope.retrieve_push_self base.scope T V
  refine ⟨hbase, ?_, ?_, ?_⟩
  · show Scope.retrieve (Scope.child es (base.set T V).scope) T = some V
    simp [Scope.retrieve, hshadow, hbase]
  · intro V'
    simp [Scope.push, Scope.retrieve, lookupTy]
  · intro req hne
    have hne' : ¬ Ty.request = T := fun hc => hne hc.symm
    show Scope.retrieve _ T = some V
    simp [requestScope, Scope.create_child, Scope.push, Scope.retrieve,
      lookupTy, hne', hbase]

/-- C8 witness: the chain-resolution theorem applied to a concrete shared
scope holding 7 under a concrete class type, with an empty-bodied request
scope and a shadowing push of 8. -/
theorem shared_scope_chain_resolution_witness :
    lookupTy (Ty.cls 2) ([] : List (Ty × Val)) = none ∧
    (create_scope.set (Ty.cls 2) 7).get (Ty.cls 2) = some 7 ∧
    (Scope.child [] (create_scope.set (Ty.cls 2) 7).scope).retrieve (Ty.cls 2)
      = some 7 ∧
    ((Scope.child [] (create_scope.set (Ty.cls 2) 7).scope).push (Ty.cls 2)
        8).retrieve (Ty.cls 2) = some 8 ∧
    (requestScope (some (create_scope.set (Ty.cls 2) 7).scope) 9).retrieve
        (Ty.cls 2) = some 7 :=
  ⟨by decide,
   (shared_scope_chain_resolution create_scope (Ty.cls 2) 7 [] (by decide)).1,
   (shared_scope_chain_resolution create_scope (Ty.cls 2) 7 [] (by decide)).2.1,
   (shared_scope_chain_resolution create_scope (Ty.cls 2) 7 []
     (by decide)).2.2.1 8,
   (shared_scope_chain_resolution create_scope (Ty.cls 2) 7 []
     (by decide)).2.2.2 9 (by decide)⟩

/-- C9: in the synthesized signature, a non-node parameter is removed
exactly when its name is the literal string `request`, irrespective of its
annotation: a parameter not so named is kept unchanged, every
`request`-named entry of the result is the appended parameter, and the
appended keyword-only parameter, annotated with the ambient request type, is
always last. -/
theorem newSignature_request_name_drop (ps : List Param)
    (nodeNames : List String) :
    (newSignature ps nodeNames).getLast? = some reqParam ∧
    (∀ p : Param, p ∈ ps → p.name ∉ nodeNames → p.name ≠ "request" →
        p ∈ newSignature ps nodeNames) ∧
    (∀ p : Param, p ∈ newSignature ps nodeNames → p.name = "request" →
        p = reqParam) ∧
    reqParam.kind = PKind.kwOnly ∧ reqParam.ann = Ann.request := by
  refine ⟨?_, ?_, ?_, rfl, rfl⟩
  · simp [newSignature, List.getLast?_concat]
  · intro p hp hn hr
    apply List.mem_append.mpr
    left
    apply List.mem_filter.mpr
    exact ⟨hp, by simp [hn, hr]⟩
  · intro p hp hr
    rcases List.mem_append.mp hp with hf | hl
    · have hcond := (List.mem_filter.mp hf).2
      simp only [decide_eq_true_eq] at hcond
      exact absurd hr hcond.2
    · simpa using hl

/-- Parameter annotated with the ambient request type but named otherwise,
used as a concrete witness. -/
def pReqTypedEx : Param := ⟨"r", Ann.request, PKind.posOrKw⟩

/-- C9 witness: the name-based drop theorem applied to a concrete signature
whose only parameter is annotated with the request type but named `r`: it is
kept, and the appended request parameter is last. -/
theorem newSignature_request_name_drop_witness :
    pReqTypedEx ∈ [pReqTypedEx] ∧
    pReqTypedEx.name ∉ ([] : List String) ∧
    pReqTypedEx.name ≠ "request" ∧
    pReqTypedEx ∈ newSignature [pReqTypedEx] [] ∧
    (newSignature [pReqTypedEx] []).getLast? = some reqParam :=
  ⟨by decide, by decide, by decide,
   (newSignature_request_name_drop [pReqTypedEx] []).2.1 pReqTypedEx
     (by decide) (by decide) (by decide),
   (newSignature_request_name_drop [pReqTypedEx] []).1⟩

/-- C10: resolution only ever adds or overwrites arguments whose names are
node-injected parameter names; every other argument reaches the original
handler exactly as the framework supplied it. -/
theorem mergedArgs_non_node_frame (np : List (String × Ann)) (s : Scope)
    (kw : List (String × Val)) (k : String) (hk : k ∉ np.map Prod.fst) :
    lookupArg k (mergedArgs np s kw) = lookupArg k kw :=
  mergedArgs_frame np s kw k hk

/-- C10 witness: the frame theorem applied to a concrete merge — the query
argument `page` is untouched by resolution. -/
theorem mergedArgs_non_node_frame_witness :
    "page" ∉ npEx.map Prod.fst ∧
    lookupArg "page" (mergedArgs npEx scopeEx [("page", 5)])
      = lookupArg "page" [("page", 5)] :=
  ⟨by decide,
   mergedArgs_non_node_frame npEx scopeEx [("page", 5)] "page" (by decide)⟩

end FastapiNodnod
